import Mathlib

/-!
Verification of the ECG scanpath pushdown-automaton engine and its
scanpath completer.  The definitions below are a shallow embedding of
`pda.py` (class `PushdownAutomaton`) and `completion.py`
(class `ScanpathCompleter`): states, input symbols and stack symbols are
strings, the stack is a list with the bottom at index 0 and the top at
the end, and the transition table is the literal list authored in
`_define_transitions`.  Stack operations are kept as the strings the
source stores (`pop`, `noop`, `push:...`, `pop:push:...`) and are
interpreted by the same string dispatch the source performs.
-/

namespace EcgPda

/-- A transition rule, mirroring the dataclass `PDATransition`. -/
structure PDATransition where
  from_state : String
  input_symbol : String
  stack_top : String
  to_state : String
  stack_operation : String
deriving DecidableEq, Repr

/-- One entry of the execution history appended by `_execute_transition`. -/
structure HistEntry where
  state : String
  input : String
  stack_before : List String
  transition : PDATransition
deriving DecidableEq, Repr

/-- The mutable run-time data of one `PushdownAutomaton` instance. -/
structure Config where
  current_state : String
  stack : List String
  history : List HistEntry
deriving DecidableEq, Repr

/-- `self.initial_state = 'qRate'`. -/
def initial_state : String := "qRate"

/-- `self.accepting_states = {'qEnd'}`. -/
def accepting_states : List String := ["qEnd"]

/-- The transition table of `_define_transitions`, in authored order. -/
def transitions : List PDATransition := [
  ⟨"qRate", "R", "Z0", "qRhythm", "push:R"⟩,
  ⟨"qRate", "Rh", "Z0", "qRhythm", "noop"⟩,
  ⟨"qRhythm", "Rh", "R", "qAxis", "pop"⟩,
  ⟨"qRhythm", "Rh", "Z0", "qAxis", "noop"⟩,
  ⟨"qAxis", "Ax", "Z0", "qMorph", "push:QRS"⟩,
  ⟨"qAxis", "Ax", "R", "qMorph", "push:QRS"⟩,
  ⟨"qAxis", "Q", "Z0", "qMorph", "push:QRS"⟩,
  ⟨"qAxis", "Detail", "Z0", "qDetail", "push:QRS:push:ExpectRepol"⟩,
  ⟨"qAxis", "ST", "Z0", "qST", "push:QRS:push:ST"⟩,
  ⟨"qAxis", "T", "Z0", "qEnd", "push:QRS"⟩,
  ⟨"qMorph", "Q", "QRS", "qMorph", "noop"⟩,
  ⟨"qMorph", "Detail", "QRS", "qDetail", "push:ExpectRepol"⟩,
  ⟨"qDetail", "V1", "ExpectRepol", "qDetail", "noop"⟩,
  ⟨"qDetail", "V2", "ExpectRepol", "qDetail", "noop"⟩,
  ⟨"qDetail", "V3", "ExpectRepol", "qDetail", "noop"⟩,
  ⟨"qDetail", "V4", "ExpectRepol", "qDetail", "noop"⟩,
  ⟨"qDetail", "V5", "ExpectRepol", "qDetail", "noop"⟩,
  ⟨"qDetail", "V6", "ExpectRepol", "qDetail", "noop"⟩,
  ⟨"qDetail", "Detail", "ExpectRepol", "qDetail", "noop"⟩,
  ⟨"qMorph", "ST", "QRS", "qST", "push:ST"⟩,
  ⟨"qDetail", "ST", "ExpectRepol", "qST", "pop:push:ST"⟩,
  ⟨"qST", "T", "ST", "qEnd", "pop"⟩,
  ⟨"qST", "QT", "ST", "qEnd", "pop"⟩,
  ⟨"qEnd", "Detail", "QRS", "qDetail", "push:ExpectRepol"⟩,
  ⟨"qEnd", "T", "QRS", "qEnd", "pop"⟩,
  ⟨"qEnd", "ST", "QRS", "qST", "push:ST"⟩,
  ⟨"qEnd", "Q", "QRS", "qEnd", "pop"⟩,
  ⟨"qDetail", "T", "QRS", "qEnd", "pop"⟩]

/-- The configuration built by `__init__`: state `qRate`, stack `['Z0']`. -/
def initConfig : Config := ⟨initial_state, ["Z0"], []⟩

/-- `reset()`: back to the initial state, stack `['Z0']`, empty history. -/
def reset (cfg : Config) : Config :=
  { cfg with current_state := initial_state, stack := ["Z0"], history := [] }

/-- `_find_transition`: first authored rule matching state, input and
stack top (`List.find?` scans in authored order like the source loop). -/
def find_transition (current_state input_symbol stack_top : String) :
    Option PDATransition :=
  transitions.find? fun t =>
    t.from_state == current_state && t.input_symbol == input_symbol &&
      t.stack_top == stack_top

/-- Splitting a character list at every occurrence of `c`; the semantics
of Python's `str.split(':')` with a one-character separator. -/
def splitOnChar (c : Char) : List Char → List (List Char)
  | [] => [[]]
  | a :: rest =>
    match splitOnChar c rest with
    | [] => [[a]]
    | g :: gs => if a == c then [] :: g :: gs else (a :: g) :: gs

/-- `op.split(':')` from `_execute_transition`, as a list of strings. -/
def splitColon (op : String) : List String :=
  (splitOnChar ':' op.toList).map fun l => String.mk l

/-- Whether `pat` is an initial segment of `s` (Python `startswith`). -/
def prefixOfChars : List Char → List Char → Bool
  | [], _ => true
  | _ :: _, [] => false
  | a :: as, b :: bs => a == b && prefixOfChars as bs

/-- Whether `pat` occurs as a contiguous substring of `s`. -/
def hasSubstring (pat : List Char) : List Char → Bool
  | [] => pat.isEmpty
  | b :: bs => prefixOfChars pat (b :: bs) || hasSubstring pat bs

/-- The source test `'pop:push' in op` (substring containment). -/
def containsPopPush (op : String) : Bool :=
  hasSubstring "pop:push".toList op.toList

/-- The source test `op.startswith('push:')`. -/
def startsWithPush (op : String) : Bool :=
  prefixOfChars "push:".toList op.toList

/-- The stack update of `_execute_transition`, branching on the operation
string exactly as the source does: `'pop'`, `'noop'`, `'pop:push' in op`
(pop then push the last `:`-separated field), `op.startswith('push:')`
(append every `:`-separated field that is non-empty and not `'push'`). -/
def apply_stack_operation (op : String) (stack : List String) : List String :=
  if op == "pop" then stack.dropLast
  else if op == "noop" then stack
  else if containsPopPush op then
    stack.dropLast ++ [(splitColon op).getLastD ""]
  else if startsWithPush op then
    stack ++ ((splitColon op).drop 1).filter fun p => p != "" && p != "push"
  else stack

/-- `_execute_transition`: record the history entry, move to the target
state, apply the stack operation. -/
def execute_transition (cfg : Config) (t : PDATransition)
    (input_symbol : String) : Config :=
  { current_state := t.to_state,
    stack := apply_stack_operation t.stack_operation cfg.stack,
    history := cfg.history ++ [⟨cfg.current_state, input_symbol, cfg.stack, t⟩] }

/-- `step`: `False` on an empty stack or when no transition matches (the
configuration is returned untouched), otherwise execute the transition
and return `True`. -/
def step (cfg : Config) (input_symbol : String) : Bool × Config :=
  match cfg.stack.getLast? with
  | none => (false, cfg)
  | some stack_top =>
    match find_transition cfg.current_state input_symbol stack_top with
    | none => (false, cfg)
    | some t => (true, execute_transition cfg t input_symbol)

/-- `accepts()`: current state among the accepting states and stack
exactly `['Z0']`. -/
def accepts (cfg : Config) : Bool :=
  accepting_states.contains cfg.current_state && cfg.stack == ["Z0"]

/-- The loop body of `process_sequence`: step each symbol in order,
return `False` at the first failure, else `accepts()` at the end. -/
def processSeqAux (cfg : Config) : List String → Bool × Config
  | [] => (accepts cfg, cfg)
  | s :: rest =>
    let r := step cfg s
    if r.1 then processSeqAux r.2 rest else (false, r.2)

/-- `process_sequence`: `reset()` then the stepping loop. -/
def process_sequence (cfg : Config) (input_sequence : List String) :
    Bool × Config :=
  processSeqAux (reset cfg) input_sequence

/-- `process_sequence` run on a fresh automaton instance. -/
def process_sequence_full (input_sequence : List String) : Bool × Config :=
  process_sequence initConfig input_sequence

/-- `is_incomplete()`: stack deeper than one entry or state not accepting. -/
def is_incomplete (cfg : Config) : Bool :=
  decide (cfg.stack.length > 1) || !(accepting_states.contains cfg.current_state)

/-- `get_missing_tasks()`: fixed lists appended for each of
`ExpectRepol`, `QRS`, `ST` found anywhere in the stack, in that order. -/
def get_missing_tasks (cfg : Config) : List String :=
  (if cfg.stack.contains "ExpectRepol" then ["ST", "T"] else []) ++
    (if cfg.stack.contains "QRS" then ["Q", "ST", "T"] else []) ++
      (if cfg.stack.contains "ST" then ["T"] else [])

/-! Shallow embedding of `completion.py` (`ScanpathCompleter`).  The
completer owns one automaton instance; its replay of the partial
sequence ignores `step` failures, so it is `stepAll` below. -/

/-- One entry of `_define_completion_rules`. -/
structure CompletionRule where
  required : List String
  optional : List String
  leads : List String
deriving DecidableEq, Repr

/-- The completion rule table of `_define_completion_rules`, keyed by
stack symbol. -/
def completion_rules (stack_symbol : String) : Option CompletionRule :=
  if stack_symbol == "ExpectRepol" then
    some ⟨["ST", "T"], ["QT"], ["V3", "V4", "V5"]⟩
  else if stack_symbol == "QRS" then
    some ⟨["Q", "ST", "T"], ["Detail"], ["V1", "V2", "V3"]⟩
  else if stack_symbol == "ST" then some ⟨["T"], ["QT"], []⟩
  else if stack_symbol == "R" then some ⟨["Rh", "Ax"], [], ["II"]⟩
  else none

/-- The replay loop of `complete_scanpath`: `step` each symbol in order,
ignoring failures (a failed `step` leaves the configuration unchanged). -/
def stepAll (cfg : Config) : List String → Config
  | [] => cfg
  | s :: rest => stepAll (step cfg s).2 rest

/-- Why the synthesis loop of `_generate_completion` stopped: the while
condition saw a stack of at most one entry, the iteration cap ran out,
or the stack top had no completion rule (the `else: break`). -/
inductive ExitReason where
  | stackDone
  | capReached
  | unknownSymbol
deriving DecidableEq, Repr

/-- The inner `for task in rule['required']` loop of
`_generate_completion`: each task is appended to the buffer before the
`step` attempt, and a failed `step` breaks out of the loop. -/
def process_required (cfg : Config) (completion : List String) :
    List String → List String × Config
  | [] => (completion, cfg)
  | task :: rest =>
    let completion2 := completion ++ [task]
    let r := step cfg task
    if r.1 then process_required r.2 completion2 rest else (completion2, r.2)

/-- `max_iterations = 50`. -/
def max_iterations : Nat := 50

/-- The while loop of `_generate_completion`, with `remaining` the
iterations left under the cap; returns the buffered completion, the
configuration, and why the loop stopped. -/
def generate_completion_loop :
    Nat → Config → List String → List String × Config × ExitReason
  | 0, cfg, completion => (completion, cfg, ExitReason.capReached)
  | n + 1, cfg, completion =>
    if cfg.stack.length > 1 then
      match completion_rules (cfg.stack.getLastD "") with
      | some rule =>
        let r := process_required cfg completion rule.required
        generate_completion_loop n r.2 r.1
      | none => (completion, cfg, ExitReason.unknownSymbol)
    else (completion, cfg, ExitReason.stackDone)

/-- `_generate_completion`: run the synthesis loop from an empty buffer
under the 50-iteration cap. -/
def generate_completion (cfg : Config) : List String × Config × ExitReason :=
  generate_completion_loop max_iterations cfg []

/-- `complete_scanpath`: replay the partial sequence (failures ignored),
return it unchanged when the automaton accepts, otherwise append the
synthesized completion. -/
def complete_scanpath (partialSeq : List String) : List String :=
  let cfg := stepAll (reset initConfig) partialSeq
  if accepts cfg then partialSeq
  else partialSeq ++ (generate_completion cfg).1

/-- `validate_completion`: `reset()` then `process_sequence` on the
candidate sequence. -/
def validate_completion (completed_sequence : List String) : Bool :=
  (process_sequence initConfig completed_sequence).1

end EcgPda

/-! Invariant layer: the stack stays non-empty with the `Z0` sentinel
at its bottom across every operation of the engine. -/

namespace EcgPda


/-- The stack invariant: non-empty, with the sentinel `Z0` at the bottom. -/
def StackInv (s : List String) : Prop := s ≠ [] ∧ s.head? = some "Z0"

lemma stackInv_append (s l : List String) (h : StackInv s) : StackInv (s ++ l) := by
  obtain ⟨hne, hhd⟩ := h
  cases s with
  | nil => exact absurd rfl hne
  | cons a t =>
    refine ⟨by simp, ?_⟩
    simpa using hhd

lemma stackInv_dropLast (s : List String) (x : String) (h : StackInv s)
    (hl : s.getLast? = some x) (hx : x ≠ "Z0") : StackInv s.dropLast := by
  obtain ⟨hne, hhd⟩ := h
  match s with
  | [] => exact absurd rfl hne
  | [a] =>
    simp only [List.head?_cons, Option.some.injEq] at hhd
    simp only [List.getLast?_singleton, Option.some.injEq] at hl
    exact absurd (hl ▸ hhd) hx
  | a :: b :: t =>
    simp only [List.head?_cons, Option.some.injEq] at hhd
    refine ⟨by simp [List.dropLast], ?_⟩
    simp [List.dropLast, hhd]

lemma trans_ops : ∀ t ∈ transitions, t.stack_operation ∈
    (["push:R", "noop", "pop", "push:QRS", "push:QRS:push:ExpectRepol",
      "push:QRS:push:ST", "push:ExpectRepol", "push:ST", "pop:push:ST"] :
      List String) := by decide

lemma trans_pop_safe : ∀ t ∈ transitions,
    (t.stack_operation = "pop" ∨ t.stack_operation = "pop:push:ST") →
    t.stack_top ≠ "Z0" := by decide

lemma apply_op_pop (s : List String) :
    apply_stack_operation "pop" s = s.dropLast := rfl

lemma apply_op_noop (s : List String) :
    apply_stack_operation "noop" s = s := rfl

lemma apply_op_popPushST (s : List String) :
    apply_stack_operation "pop:push:ST" s = s.dropLast ++ ["ST"] := rfl

lemma apply_op_pushR (s : List String) :
    apply_stack_operation "push:R" s = s ++ ["R"] := rfl

lemma apply_op_pushQRS (s : List String) :
    apply_stack_operation "push:QRS" s = s ++ ["QRS"] := rfl

lemma apply_op_pushQRSER (s : List String) :
    apply_stack_operation "push:QRS:push:ExpectRepol" s =
      s ++ ["QRS", "ExpectRepol"] := rfl

lemma apply_op_pushQRSST (s : List String) :
    apply_stack_operation "push:QRS:push:ST" s = s ++ ["QRS", "ST"] := rfl

lemma apply_op_pushER (s : List String) :
    apply_stack_operation "push:ExpectRepol" s = s ++ ["ExpectRepol"] := rfl

lemma apply_op_pushST (s : List String) :
    apply_stack_operation "push:ST" s = s ++ ["ST"] := rfl

lemma find_transition_spec {st i top : String} {t : PDATransition}
    (hf : find_transition st i top = some t) :
    t ∈ transitions ∧ t.stack_top = top := by
  refine ⟨List.mem_of_find?_eq_some hf, ?_⟩
  have hp := List.find?_some hf
  simp only [Bool.and_eq_true, beq_iff_eq] at hp
  exact hp.2

lemma step_stackInv (cfg : Config) (i : String) (h : StackInv cfg.stack) :
    StackInv (step cfg i).2.stack := by
  cases hl : cfg.stack.getLast? with
  | none => simpa only [step, hl] using h
  | some top =>
    cases hf : find_transition cfg.current_state i top with
    | none => simpa only [step, hl, hf] using h
    | some t =>
      obtain ⟨hmem, htop⟩ := find_transition_spec hf
      have hops := trans_ops t hmem
      have hlast : cfg.stack.getLast? = some t.stack_top := htop ▸ hl
      simp only [step, hl, hf]
      show StackInv (apply_stack_operation t.stack_operation cfg.stack)
      simp only [List.mem_cons, List.not_mem_nil, or_false] at hops
      rcases hops with h9|h9|h9|h9|h9|h9|h9|h9|h9 <;> rw [h9]
      · rw [apply_op_pushR]; exact stackInv_append _ _ h
      · rw [apply_op_noop]; exact h
      · rw [apply_op_pop]
        exact stackInv_dropLast _ _ h hlast (trans_pop_safe t hmem (Or.inl h9))
      · rw [apply_op_pushQRS]; exact stackInv_append _ _ h
      · rw [apply_op_pushQRSER]; exact stackInv_append _ _ h
      · rw [apply_op_pushQRSST]; exact stackInv_append _ _ h
      · rw [apply_op_pushER]; exact stackInv_append _ _ h
      · rw [apply_op_pushST]; exact stackInv_append _ _ h
      · rw [apply_op_popPushST]
        exact stackInv_append _ _
          (stackInv_dropLast _ _ h hlast (trans_pop_safe t hmem (Or.inr h9)))


lemma stepAll_stackInv (l : List String) (cfg : Config)
    (h : StackInv cfg.stack) : StackInv (stepAll cfg l).stack := by
  induction l generalizing cfg with
  | nil => exact h
  | cons s rest ih => exact ih _ (step_stackInv cfg s h)

lemma processSeqAux_stackInv (l : List String) (cfg : Config)
    (h : StackInv cfg.stack) : StackInv (processSeqAux cfg l).2.stack := by
  induction l generalizing cfg with
  | nil => exact h
  | cons s rest ih =>
    by_cases hs : (step cfg s).1 = true
    · simpa only [processSeqAux, hs, if_true] using ih _ (step_stackInv cfg s h)
    · simp only [processSeqAux, hs, if_false]
      exact step_stackInv cfg s h

lemma step_fail (cfg : Config) (i : String) (h : (step cfg i).1 = false) :
    step cfg i = (false, cfg) := by
  cases hl : cfg.stack.getLast? with
  | none => simp only [step, hl]
  | some top =>
    cases hf : find_transition cfg.current_state i top with
    | none => simp only [step, hl, hf]
    | some t => simp [step, hl, hf] at h

/-- Whether every `step` of the run succeeds (no failed lookups). -/
def allOk (cfg : Config) : List String → Bool
  | [] => true
  | s :: rest => (step cfg s).1 && allOk (step cfg s).2 rest

lemma processSeqAux_ok (l : List String) (cfg : Config)
    (h : allOk cfg l = true) :
    processSeqAux cfg l = (accepts (stepAll cfg l), stepAll cfg l) := by
  induction l generalizing cfg with
  | nil => rfl
  | cons s rest ih =>
    simp only [allOk, Bool.and_eq_true] at h
    simp only [processSeqAux, stepAll, h.1, if_true]
    exact ih _ h.2

lemma processSeqAux_fail (l : List String) (cfg : Config)
    (h : allOk cfg l = false) :
    (processSeqAux cfg l).1 = false ∧
      ∃ pre x post, l = pre ++ x :: post ∧ allOk cfg pre = true ∧
        (step (stepAll cfg pre) x).1 = false ∧
        (processSeqAux cfg l).2 = stepAll cfg pre := by
  induction l generalizing cfg with
  | nil => simp [allOk] at h
  | cons s rest ih =>
    by_cases hs : (step cfg s).1 = true
    · simp only [allOk, hs, Bool.true_and] at h
      obtain ⟨h1, pre, x, post, hsplit, hpre, hx, hcfg⟩ := ih _ h
      refine ⟨?_, s :: pre, x, post, by simp [hsplit], ?_, ?_, ?_⟩
      · simpa only [processSeqAux, hs, if_true] using h1
      · simp only [allOk, hs, Bool.true_and]; exact hpre
      · simpa only [stepAll] using hx
      · simpa only [processSeqAux, stepAll, hs, if_true] using hcfg
    · have hs' : (step cfg s).1 = false := by
        exact Bool.eq_false_iff.mpr hs
      refine ⟨?_, [], s, rest, rfl, rfl, ?_, ?_⟩
      · simp [processSeqAux, hs']
      · simpa only [stepAll] using hs'
      · simp only [stepAll]
        have h2 := congrArg Prod.snd (step_fail cfg s hs')
        simp [processSeqAux, hs', h2]

lemma processSeqAux_true (l : List String) (cfg : Config)
    (h : (processSeqAux cfg l).1 = true) : allOk cfg l = true := by
  induction l generalizing cfg with
  | nil => rfl
  | cons s rest ih =>
    by_cases hs : (step cfg s).1 = true
    · simp only [processSeqAux, hs, if_true] at h
      simp only [allOk, hs, Bool.true_and]
      exact ih _ h
    · simp only [processSeqAux, hs, if_false] at h
      exact absurd h (by simp)

lemma genLoop_exit (fuel : Nat) (cfg : Config) (comp : List String) :
    ((generate_completion_loop fuel cfg comp).2.2 = ExitReason.stackDone →
      (generate_completion_loop fuel cfg comp).2.1.stack.length ≤ 1) ∧
    ((generate_completion_loop fuel cfg comp).2.2 = ExitReason.unknownSymbol →
      (generate_completion_loop fuel cfg comp).2.1.stack.length > 1 ∧
        completion_rules
          ((generate_completion_loop fuel cfg comp).2.1.stack.getLastD "") =
          none) := by
  induction fuel generalizing cfg comp with
  | zero =>
    constructor
    · intro h
      simp only [generate_completion_loop] at h
      exact absurd h (by decide)
    · intro h
      simp only [generate_completion_loop] at h
      exact absurd h (by decide)
  | succ n ih =>
    by_cases hlen : cfg.stack.length > 1
    · cases hr : completion_rules (cfg.stack.getLastD "") with
      | none =>
        constructor
        · intro h
          simp only [generate_completion_loop, if_pos hlen, hr] at h
          exact absurd h (by decide)
        · intro h
          simp only [generate_completion_loop, if_pos hlen, hr]
          exact ⟨hlen, trivial⟩
      | some rule =>
        simp only [generate_completion_loop, if_pos hlen, hr]
        exact ih _ _
    · constructor
      · intro h
        simp only [generate_completion_loop, if_neg hlen]
        omega
      · intro h
        simp only [generate_completion_loop, if_neg hlen] at h
        exact absurd h (by decide)

/-! The claims. -/


/-- Claim C1, counterexample: on the input sequence
`['R','Rh','Ax','Q','ST','T']` the engine's `process_sequence` returns
`false`, not `true` as claimed — the final `pop` at `qST` removes only
the `ST` marker and leaves `QRS` on the stack. -/
theorem c1_endToEnd_counterexample :
    (process_sequence_full ["R", "Rh", "Ax", "Q", "ST", "T"]).1 = false := by
  decide

/-- Claim C1, amended: for the input sequence
`['R','Rh','Ax','Q','ST','T']`, `process_sequence` returns `false`, and
afterwards the stack equals `['Z0','QRS']` while the current state is
the accepting state `qEnd` (the `QRS` obligation is still pending, so
the configuration is not accepting). -/
theorem c1_endToEnd_amended :
    (process_sequence_full ["R", "Rh", "Ax", "Q", "ST", "T"]).1 = false ∧
    (process_sequence_full ["R", "Rh", "Ax", "Q", "ST", "T"]).2.stack =
      ["Z0", "QRS"] ∧
    (process_sequence_full ["R", "Rh", "Ax", "Q", "ST", "T"]).2.current_state =
      "qEnd" := by
  decide

/-- Claim C2, counterexample: for the partial sequence `['R']` the
completed sequence is rejected by `validate_completion`, yet the
synthesis loop did not stop with an unknown-symbol abort (it stopped
because the stack shrank to the sentinel alone, after a trailing `ST`
had been buffered by a failed required step) — a third outcome the
claim rules out. -/
theorem c2_completion_counterexample :
    validate_completion (complete_scanpath ["R"]) = false ∧
    (generate_completion (stepAll (reset initConfig) ["R"])).2.2 ≠
      ExitReason.unknownSymbol := by
  decide

/-- Claim C2, amended: for every partial input sequence the synthesis
loop terminates, and either the completed sequence is accepted by
`validate_completion`, or the loop stopped because the stack shrank to
at most one entry (the result may still be rejected, as for `['R']`),
or because the stack top had no completion-rule entry (then the stack
is still deeper than one entry), or because the 50-iteration cap was
exhausted. -/
theorem c2_completion_amended (p : List String) :
    validate_completion (complete_scanpath p) = true ∨
    ((generate_completion (stepAll (reset initConfig) p)).2.2 =
        ExitReason.stackDone ∧
      (generate_completion (stepAll (reset initConfig) p)).2.1.stack.length ≤ 1) ∨
    ((generate_completion (stepAll (reset initConfig) p)).2.2 =
        ExitReason.unknownSymbol ∧
      (generate_completion (stepAll (reset initConfig) p)).2.1.stack.length > 1 ∧
      completion_rules
        ((generate_completion (stepAll (reset initConfig) p)).2.1.stack.getLastD
          "") = none) ∨
    (generate_completion (stepAll (reset initConfig) p)).2.2 =
      ExitReason.capReached := by
  right
  have h := genLoop_exit max_iterations (stepAll (reset initConfig) p) []
  show _ ∨ _ ∨ _
  cases he : (generate_completion (stepAll (reset initConfig) p)).2.2 with
  | stackDone => exact Or.inl ⟨rfl, h.1 he⟩
  | capReached => exact Or.inr (Or.inr rfl)
  | unknownSymbol => exact Or.inr (Or.inl ⟨rfl, h.2 he⟩)

/-- Claim C3: for every configuration, `accepts` returns `true` iff the
current state is `qEnd` and the stack is exactly `['Z0']`; a
configuration violating only one conjunct (state `qEnd` with a residual
`QRS` above the sentinel, or stack `['Z0']` in state `qRate`) is not
accepting. -/
theorem c3_accepts_iff :
    (∀ cfg : Config, accepts cfg = true ↔
      cfg.current_state = "qEnd" ∧ cfg.stack = ["Z0"]) ∧
    accepts ⟨"qEnd", ["Z0", "QRS"], []⟩ = false ∧
    accepts ⟨"qRate", ["Z0"], []⟩ = false := by
  refine ⟨fun cfg => ?_, by decide, by decide⟩
  simp [accepts, accepting_states]

/-- Claim C4: for every input sequence, after `reset` followed by
`process_sequence` the stack is non-empty with the sentinel `Z0` as its
bottom element, and no transition of the table whose operation pops
(`pop` or `pop:push:ST`) matches stack top `Z0`. -/
theorem c4_sentinel_invariant :
    (∀ s : List String, (process_sequence_full s).2.stack ≠ [] ∧
      (process_sequence_full s).2.stack.head? = some "Z0") ∧
    (∀ t ∈ transitions,
      (t.stack_operation = "pop" ∨ t.stack_operation = "pop:push:ST") →
        t.stack_top ≠ "Z0") := by
  refine ⟨fun s => ?_, trans_pop_safe⟩
  exact processSeqAux_stackInv s (reset initConfig) ⟨List.cons_ne_nil _ _, rfl⟩

/-- Claim C5: whenever `step` returns `false` (no transition matches
the current state, input and stack top, or the stack is empty), the
whole configuration — state, stack and history — is returned exactly as
it was, with no history entry appended. -/
theorem c5_step_failure_frame (cfg : Config) (i : String)
    (h : (step cfg i).1 = false) : step cfg i = (false, cfg) :=
  step_fail cfg i h

/-- Claim C5: whenever `step` returns `false` (no transition matches
the current state, input and stack top, or the stack is empty), the
whole configuration — state, stack and history — is returned exactly as
it was, with no history entry appended. -/
theorem c5_step_failure_frame_witness :
    (step initConfig "T").1 = false ∧ step initConfig "T" = (false, initConfig) :=
  ⟨by decide, c5_step_failure_frame initConfig "T" (by decide)⟩

/-- Claim C6: `process_sequence` resets and then steps each symbol in
order; when every step succeeds it returns `accepts()` of the final
configuration (the same configuration the failure-ignoring replay
reaches), and at the first failing step it returns `false` immediately,
leaving exactly the configuration reached by the successful prefix
(the failing step changes nothing and no further symbol is
processed). -/
theorem c6_process_sequence_shortCircuit (s : List String) :
    (allOk (reset initConfig) s = true →
      process_sequence_full s =
        (accepts (stepAll (reset initConfig) s), stepAll (reset initConfig) s)) ∧
    (allOk (reset initConfig) s = false →
      (process_sequence_full s).1 = false ∧
        ∃ pre x post, s = pre ++ x :: post ∧
          allOk (reset initConfig) pre = true ∧
          (step (stepAll (reset initConfig) pre) x).1 = false ∧
          (process_sequence_full s).2 = stepAll (reset initConfig) pre) :=
  ⟨processSeqAux_ok s (reset initConfig), processSeqAux_fail s (reset initConfig)⟩

/-- Claim C7: after `process_sequence ['R','Rh','Ax','Q','Detail']`
(which returns `false` with stack `['Z0','QRS','ExpectRepol']`),
`get_missing_tasks` returns exactly `['ST','T','Q','ST','T']`; and for
any configuration whose stack contains `ExpectRepol` and `QRS` but not
`ST`, the fixed per-symbol lists are appended in the priority order
`ExpectRepol`, `QRS`, `ST` without deduplication. -/
theorem c7_missing_tasks :
    ((process_sequence_full ["R", "Rh", "Ax", "Q", "Detail"]).1 = false ∧
      (process_sequence_full ["R", "Rh", "Ax", "Q", "Detail"]).2.stack =
        ["Z0", "QRS", "ExpectRepol"] ∧
      get_missing_tasks (process_sequence_full ["R", "Rh", "Ax", "Q", "Detail"]).2 =
        ["ST", "T", "Q", "ST", "T"]) ∧
    (∀ cfg : Config, cfg.stack.contains "ExpectRepol" = true →
      cfg.stack.contains "QRS" = true → cfg.stack.contains "ST" = false →
      get_missing_tasks cfg = ["ST", "T", "Q", "ST", "T"]) := by
  refine ⟨by decide, fun cfg h1 h2 h3 => ?_⟩
  simp at h1 h2 h3
  simp [get_missing_tasks, h1, h2, h3]

/-- Claim C8: if `process_sequence s` accepts, then `complete_scanpath
s` returns `s` unchanged, appending no symbols. -/
theorem c8_accepting_fixed_point (s : List String)
    (h : (process_sequence_full s).1 = true) : complete_scanpath s = s := by
  have hok : allOk (reset initConfig) s = true :=
    processSeqAux_true s (reset initConfig) h
  have heq := processSeqAux_ok s (reset initConfig) hok
  have hacc : accepts (stepAll (reset initConfig) s) = true := by
    have h1 : (processSeqAux (reset initConfig) s).1 =
        accepts (stepAll (reset initConfig) s) := by rw [heq]
    rw [← h1]; exact h
  simp [complete_scanpath, hacc]

/-- Claim C8: if `process_sequence s` accepts, then `complete_scanpath
s` returns `s` unchanged, appending no symbols. -/
theorem c8_accepting_fixed_point_witness :
    (process_sequence_full ["Rh", "Rh", "T", "T"]).1 = true ∧
      complete_scanpath ["Rh", "Rh", "T", "T"] = ["Rh", "Rh", "T", "T"] :=
  ⟨by decide, c8_accepting_fixed_point ["Rh", "Rh", "T", "T"] (by decide)⟩

/-- Claim C9: the static transition table is deterministic — for every
`(state, input, stackTop)` triple appearing in the table, exactly one
authored transition matches it. -/
theorem c9_transitions_deterministic :
    (transitions.all fun t =>
      (transitions.filter fun u =>
        u.from_state == t.from_state && u.input_symbol == t.input_symbol &&
          u.stack_top == t.stack_top).length == 1) = true := by
  decide

/-- A configuration obtained from a fresh reset automaton by a finite
sequence of `step` calls (failed calls leave the configuration as it was). -/
def Reachable (cfg : Config) : Prop :=
  ∃ l : List String, stepAll (reset initConfig) l = cfg

/-- Claim C10: on every configuration reachable from `reset` by `step`
calls, `is_incomplete` returns the exact negation of `accepts`: the
reachable stack is non-empty with `Z0` at the bottom, so
`stack.length > 1` or a non-accepting state holds precisely when the
configuration is not accepting. -/
theorem c10_is_incomplete_negates_accepts (cfg : Config) (h : Reachable cfg) :
    is_incomplete cfg = !(accepts cfg) := by
  obtain ⟨l, hl⟩ := h
  have hinv : StackInv cfg.stack := by
    rw [← hl]
    exact stepAll_stackInv l (reset initConfig) ⟨List.cons_ne_nil _ _, rfl⟩
  obtain ⟨hne, hhd⟩ := hinv
  rcases hstk : cfg.stack with _ | ⟨a, t⟩
  · exact absurd hstk hne
  · have ha : a = "Z0" := by
      rw [hstk] at hhd
      simpa using hhd
    cases t with
    | nil => simp [is_incomplete, accepts, hstk, ha, accepting_states]
    | cons b t2 => simp [is_incomplete, accepts, hstk, ha, accepting_states]

/-- Claim C10: on every configuration reachable from `reset` by `step`
calls, `is_incomplete` returns the exact negation of `accepts`: the
reachable stack is non-empty with `Z0` at the bottom, so
`stack.length > 1` or a non-accepting state holds precisely when the
configuration is not accepting. -/
theorem c10_is_incomplete_negates_accepts_witness :
    Reachable initConfig ∧ is_incomplete initConfig = !(accepts initConfig) :=
  ⟨⟨[], rfl⟩, c10_is_incomplete_negates_accepts initConfig ⟨[], rfl⟩⟩

end EcgPda
